import Mathlib

/-!
Verification development for the APOB firmware-blob inspector.

The Rust sources are embedded shallowly:

* `src/apob/src/lib.rs` — the binary data model (header, record entries,
  group classification, bit-packed diagnostic fields).
* `src/apob-cli/src/main.rs` — the container parser that walks the blob
  into an ordered item list, and the flat-dump decoder.
* `src/apob-cli/src/app.rs` — the interactive browser state machine
  (selection, per-item scroll cache, grouping width, momentum).

Bytes are modelled as `Nat` values (with explicit `< 256` bounds where a
round-trip argument needs them); `u32` fields are `Nat` values below
`2 ^ 32`; `usize` arithmetic that can underflow is modelled with an
explicit wrap at `2 ^ 64` (release-profile semantics; debug builds would
panic at the same spot).  Fallible Rust operations — slice indexing,
`unwrap`, assertions — are modelled with `Option` or `Except`: a `none`
or `.error` result marks the input on which the Rust program panics or
aborts.
-/

namespace Apob

/-- Signature constant: the four ASCII bytes of "APOB" (from `apob/src/lib.rs`). -/
def APOB_SIG : List Nat := [65, 80, 79, 66]

/-- Known version constant (from `apob/src/lib.rs`). -/
def APOB_VERSION : Nat := 0x18

/-- Mask applied to the group field to cancel the group (from `apob/src/lib.rs`). -/
def APOB_CANCELLED : Nat := 0xFFFF0000

/-- Group enumeration from `apob/src/lib.rs` (`ApobGroup`), ids 1 through 10. -/
inductive ApobGroup where
  | MEMORY
  | DF
  | CCX
  | NBIO
  | FCH
  | PSP
  | GENERAL
  | SMBIOS
  | FABRIC
  | APCB
deriving DecidableEq, Repr

open ApobGroup in
/-- Discriminant-to-group mapping generated by `FromRepr` on `ApobGroup`
(`MEMORY = 1`, the remaining variants following in declaration order). -/
def ApobGroup.fromRepr : Nat → Option ApobGroup
  | 1 => some MEMORY
  | 2 => some DF
  | 3 => some CCX
  | 4 => some NBIO
  | 5 => some FCH
  | 6 => some PSP
  | 7 => some GENERAL
  | 8 => some SMBIOS
  | 9 => some FABRIC
  | 10 => some APCB
  | _ => none

/-- Fixed 16-byte blob header (`ApobHeader` in `apob/src/lib.rs`). -/
structure ApobHeader where
  sig : List Nat
  version : Nat
  size : Nat
  offset : Nat
deriving DecidableEq, Repr

/-- Fixed 48-byte record header (`ApobEntry` in `apob/src/lib.rs`):
three `u32` fields, a `u32` size (including this header) and a 32-byte
integrity tag. -/
structure ApobEntry where
  group : Nat
  ty : Nat
  inst : Nat
  size : Nat
  hmac : List Nat
deriving DecidableEq, Repr

/-- Group classifier (`ApobEntry::group` in `apob/src/lib.rs`): masks off
the cancellation bits and maps the remainder through the enumeration.
Named `group_of` here because `group` is taken by the structure field. -/
def ApobEntry.group_of (e : ApobEntry) : Option ApobGroup :=
  ApobGroup.fromRepr (e.group &&& (0xFFFFFFFF - APOB_CANCELLED))

/-- Cancellation test (`ApobEntry::cancelled` in `apob/src/lib.rs`): a
group is cancelled when its top 16 bits are all set to 1. -/
def ApobEntry.cancelled (e : ApobEntry) : Bool :=
  e.group &&& APOB_CANCELLED == APOB_CANCELLED

/-- Bit-packed word of one PMU training-failure entry
(`PmuTfiEntryBitfield` in `apob/src/lib.rs`). -/
structure PmuTfiEntryBitfield where
  val : Nat
deriving DecidableEq, Repr

/-- Socket field: bit 0. -/
def PmuTfiEntryBitfield.sock (b : PmuTfiEntryBitfield) : Nat :=
  b.val &&& 1

/-- UMC field: bits 1 through 3. -/
def PmuTfiEntryBitfield.umc (b : PmuTfiEntryBitfield) : Nat :=
  (b.val >>> 1) &&& 0b111

/-- Dimension field: bit 4 (0 for 1D and 1 for 2D). -/
def PmuTfiEntryBitfield.dimension (b : PmuTfiEntryBitfield) : Nat :=
  (b.val >>> 4) &&& 1

/-- Number of the 1D training pass: bits 5 through 7. -/
def PmuTfiEntryBitfield.num_1d (b : PmuTfiEntryBitfield) : Nat :=
  (b.val >>> 5) &&& 0b111

/-- Stage field: bits 15 through 30. -/
def PmuTfiEntryBitfield.stage (b : PmuTfiEntryBitfield) : Nat :=
  (b.val >>> 15) &&& 0xFFFF

end Apob

section BitLemmas

open Apob

/-- Masking with the low-16 mask is reduction modulo `2 ^ 16`. -/
theorem land_ffff (g : Nat) : g &&& 0xFFFF = g % 2 ^ 16 := by
  have h : (0xFFFF : Nat) = 2 ^ 16 - 1 := by norm_num
  rw [h, Nat.and_pow_two_sub_one_eq_mod]

/-- The cancellation mask singles out bits 16 through 31: conjunction with
it equals the middle 16 bits shifted back up. -/
theorem land_cancelled_eq (g : Nat) :
    g &&& APOB_CANCELLED = ((g >>> 16) % 2 ^ 16) <<< 16 := by
  apply Nat.eq_of_testBit_eq
  intro i
  have hmask : (APOB_CANCELLED : Nat) = (2 ^ 16 - 1) <<< 16 := by
    norm_num [APOB_CANCELLED, Nat.shiftLeft_eq]
  rw [hmask]
  simp only [Nat.testBit_and, Nat.testBit_shiftLeft, Nat.testBit_mod_two_pow,
    Nat.testBit_shiftRight, Nat.testBit_two_pow_sub_one]
  by_cases h16 : 16 ≤ i
  · have : 16 + (i - 16) = i := by omega
    simp [h16, this, Bool.and_comm]
  · simp [h16]

/-- Masking with the single low bit is reduction modulo 2. -/
theorem land_one (g : Nat) : g &&& 1 = g % 2 ^ 1 := by
  have h : (1 : Nat) = 2 ^ 1 - 1 := by norm_num
  conv_lhs => rw [h]
  rw [Nat.and_pow_two_sub_one_eq_mod]

/-- Masking with the low-3 mask is reduction modulo `2 ^ 3`. -/
theorem land_seven (g : Nat) : g &&& 7 = g % 2 ^ 3 := by
  have h : (7 : Nat) = 2 ^ 3 - 1 := by norm_num
  rw [h, Nat.and_pow_two_sub_one_eq_mod]

/-- Cancellation holds for a 32-bit group word exactly when its high half
is all ones. -/
theorem cancelled_iff_high_bits {g : Nat} (h : g < 2 ^ 32) :
    (g &&& APOB_CANCELLED == APOB_CANCELLED) = true ↔ g >>> 16 = 0xFFFF := by
  rw [beq_iff_eq, land_cancelled_eq]
  have hlt : g >>> 16 < 2 ^ 16 := by
    rw [Nat.shiftRight_eq_div_pow]
    omega
  rw [Nat.mod_eq_of_lt hlt]
  have hmask : (APOB_CANCELLED : Nat) = 0xFFFF <<< 16 := by
    norm_num [APOB_CANCELLED, Nat.shiftLeft_eq]
  rw [hmask, Nat.shiftLeft_eq, Nat.shiftLeft_eq]
  constructor
  · intro hx
    exact Nat.eq_of_mul_eq_mul_right (by norm_num) hx
  · intro hx
    rw [hx]

end BitLemmas

/-- C5: for every record, `cancelled` returns true iff the high 16 bits of
the group field are exactly `0xFFFF`, and `group_of` depends only on the
low 16 bits: it is unchanged by clearing the high 16 bits. -/
theorem claim_C5 (e : Apob.ApobEntry) (h : e.group < 2 ^ 32) :
    (e.cancelled = true ↔ e.group >>> 16 = 0xFFFF) ∧
    e.group_of = Apob.ApobEntry.group_of { e with group := e.group % 2 ^ 16 } := by
  constructor
  · exact cancelled_iff_high_bits h
  · show Apob.ApobGroup.fromRepr _ = Apob.ApobGroup.fromRepr _
    have hm : (0xFFFFFFFF - Apob.APOB_CANCELLED : Nat) = 0xFFFF := by
      norm_num [Apob.APOB_CANCELLED]
    rw [hm, land_ffff, land_ffff]
    simp [Nat.mod_mod_of_dvd]

/-- C5 witness: the concrete group word `0xFFFF0001` satisfies both
conjuncts of claim C5. -/
theorem claim_C5_witness :
    ((0xFFFF0001 : Nat) < 2 ^ 32) ∧
    (((⟨0xFFFF0001, 0, 0, 48, []⟩ : Apob.ApobEntry).cancelled = true ↔
        (0xFFFF0001 : Nat) >>> 16 = 0xFFFF) ∧
      (⟨0xFFFF0001, 0, 0, 48, []⟩ : Apob.ApobEntry).group_of =
        Apob.ApobEntry.group_of ⟨(0xFFFF0001 : Nat) % 2 ^ 16, 0, 0, 48, []⟩) :=
  ⟨by norm_num, claim_C5 ⟨0xFFFF0001, 0, 0, 48, []⟩ (by norm_num)⟩

/-- C6 counterexample: the record with group word `0x0001FFFF` is NOT
cancelled (its high 16 bits are `0x0001`), and its group resolves to
`none` (the masked value `0xFFFF` is not a known group id), contradicting
the claim that it is cancelled with group `MEMORY`. -/
theorem claim_C6_counterexample :
    (⟨0x0001FFFF, 0, 0, 48, []⟩ : Apob.ApobEntry).cancelled = false ∧
    (⟨0x0001FFFF, 0, 0, 48, []⟩ : Apob.ApobEntry).group_of = none := by
  constructor <;> decide

/-- C6 (amended): the record whose group word is `0xFFFF0001` — the high
half carrying the cancellation pattern and the low half the memory id —
is cancelled and resolves to the memory group. -/
theorem claim_C6 :
    (⟨0xFFFF0001, 0, 0, 48, []⟩ : Apob.ApobEntry).cancelled = true ∧
    (⟨0xFFFF0001, 0, 0, 48, []⟩ : Apob.ApobEntry).group_of =
      some Apob.ApobGroup.MEMORY := by
  constructor <;> decide

/-- C10: the PMU training-failure bitfield extractors return exactly the
documented bit ranges — `sock` bit 0, `umc` bits 1-3, `dimension` bit 4,
`num_1d` bits 5-7, `stage` bits 15-30 — all unsigned and total, with the
corresponding range bounds. -/
theorem claim_C10 (b : Apob.PmuTfiEntryBitfield) :
    b.sock = b.val % 2 ∧
    b.umc = b.val / 2 ^ 1 % 2 ^ 3 ∧
    b.dimension = b.val / 2 ^ 4 % 2 ∧
    b.num_1d = b.val / 2 ^ 5 % 2 ^ 3 ∧
    b.stage = b.val / 2 ^ 15 % 2 ^ 16 ∧
    b.sock < 2 ∧ b.umc < 8 ∧ b.dimension < 2 ∧ b.num_1d < 8 ∧
    b.stage < 2 ^ 16 := by
  have hs : b.sock = b.val % 2 := by
    rw [Apob.PmuTfiEntryBitfield.sock, land_one, pow_one]
  have hu : b.umc = b.val / 2 ^ 1 % 2 ^ 3 := by
    rw [Apob.PmuTfiEntryBitfield.umc, land_seven, Nat.shiftRight_eq_div_pow]
  have hd : b.dimension = b.val / 2 ^ 4 % 2 := by
    rw [Apob.PmuTfiEntryBitfield.dimension, land_one, pow_one,
      Nat.shiftRight_eq_div_pow]
  have hn : b.num_1d = b.val / 2 ^ 5 % 2 ^ 3 := by
    rw [Apob.PmuTfiEntryBitfield.num_1d, land_seven, Nat.shiftRight_eq_div_pow]
  have hg : b.stage = b.val / 2 ^ 15 % 2 ^ 16 := by
    rw [Apob.PmuTfiEntryBitfield.stage, land_ffff, Nat.shiftRight_eq_div_pow]
  refine ⟨hs, hu, hd, hn, hg, ?_, ?_, ?_, ?_, ?_⟩ <;>
    simp [hs, hu, hd, hn, hg] <;> omega

namespace Cli

open Apob

/-- Little-endian 32-bit read from the first four bytes of a list
(modelling how `zerocopy::FromBytes` materialises a `u32` field). -/
def readLE32 (l : List Nat) : Nat :=
  l.getD 0 0 + 256 * l.getD 1 0 + 65536 * l.getD 2 0 + 16777216 * l.getD 3 0

/-- Little-endian serialisation of a 32-bit value back to four bytes. -/
def le32 (n : Nat) : List Nat :=
  [n % 256, n / 256 % 256, n / 65536 % 256, n / 16777216 % 256]

/-- Field layout of `ApobHeader` (16 bytes): `sig[4]`, `version:u32`,
`size:u32`, `offset:u32`, as read by `ApobHeader::ref_from_prefix`. -/
def readHeader (bytes : List Nat) : ApobHeader :=
  { sig := bytes.take 4
    version := readLE32 (bytes.drop 4)
    size := readLE32 (bytes.drop 8)
    offset := readLE32 (bytes.drop 12) }

/-- Field layout of `ApobEntry` (48 bytes): `group`, `ty`, `inst`, `size`
(u32 each) then the 32-byte `hmac`, as read by
`ApobEntry::ref_from_prefix`. -/
def readEntry (b : List Nat) : ApobEntry :=
  { group := readLE32 b
    ty := readLE32 (b.drop 4)
    inst := readLE32 (b.drop 8)
    size := readLE32 (b.drop 12)
    hmac := (b.drop 16).take 32 }

/-- Item variants of `apob-cli/src/main.rs` (`enum Item`). -/
inductive Item where
  | header (h : ApobHeader)
  | padding
  | entry (e : ApobEntry)
deriving DecidableEq, Repr

/-- One emitted item (`struct Entry` in `apob-cli/src/main.rs`): starting
offset, decoded variant, and the raw payload slice. -/
structure Entry where
  offset : Nat
  entry : Item
  data : List Nat
deriving DecidableEq, Repr

/-- Failure sites of the parser in `main`.  The Rust code reports these by
panicking (slice-bounds violations, `unwrap`, `assert_eq`); the
constructor names follow the spec taxonomy in section 7 where it names
the site, so that each distinct panic site carries a distinct label. -/
inductive ParseError where
  | truncatedHeader
  | badSignature
  | badVersion
  | paddingOverrun
  | truncatedRecord
  | recordTooSmall
  | recordOverrun
deriving DecidableEq, Repr

/-- Record-walking loop of `main` (`while pos < data.len()`), embedded
with a fuel argument for structural recursion; `parse` supplies fuel
`bytes.length + 1`, which exceeds the iteration count since every
accepted record advances `pos` by at least 48.  Per iteration:
`ApobEntry::ref_from_prefix(&data[pos..])` needs 48 bytes
(`truncatedRecord`); the slice `data[pos..][..entry.size]` needs
`entry.size` bytes remaining (`recordOverrun`); the payload slice
`[48..]` of it needs `entry.size ≥ 48` (`recordTooSmall`). -/
def parseEntries (bytes : List Nat) : Nat → Nat → Except ParseError (List Entry)
  | _, 0 => .ok []
  | pos, fuel + 1 =>
    if pos < bytes.length then
      if bytes.length - pos < 48 then .error .truncatedRecord
      else if bytes.length - pos < (readEntry (bytes.drop pos)).size then
        .error .recordOverrun
      else if (readEntry (bytes.drop pos)).size < 48 then .error .recordTooSmall
      else
        match parseEntries bytes (pos + (readEntry (bytes.drop pos)).size) fuel with
        | .error err => .error err
        | .ok rest =>
          .ok ({ offset := pos, entry := .entry (readEntry (bytes.drop pos)),
                 data := ((bytes.drop pos).take (readEntry (bytes.drop pos)).size).drop 48 }
            :: rest)
    else .ok []

/-- Container parse of `main` (`apob-cli/src/main.rs` lines 49-78): read
and validate the header, emit the header and padding items, then walk the
records.  An `.error` result marks an input on which the Rust program
panics or fails an assertion and produces no item list. -/
def parse (bytes : List Nat) : Except ParseError (List Entry) :=
  if bytes.length < 16 then .error .truncatedHeader
  else if (readHeader bytes).sig ≠ APOB_SIG then .error .badSignature
  else if (readHeader bytes).version ≠ APOB_VERSION then .error .badVersion
  else if (readHeader bytes).offset < 16 then .error .truncatedHeader
  else if bytes.length < (readHeader bytes).offset then .error .paddingOverrun
  else
    match parseEntries bytes (readHeader bytes).offset (bytes.length + 1) with
    | .error e => .error e
    | .ok rest =>
      .ok ({ offset := 0, entry := .header (readHeader bytes), data := bytes.take 16 }
        :: { offset := 16, entry := .padding,
             data := (bytes.take (readHeader bytes).offset).drop 16 }
        :: rest)

/-- Serialisation of the fixed 48-byte record header back to bytes. -/
def serializeEntry (e : ApobEntry) : List Nat :=
  le32 e.group ++ le32 e.ty ++ le32 e.inst ++ le32 e.size ++ e.hmac

/-- Full byte region of an item: the raw payload, preceded by the 48
record-header bytes for a record item (the header item already carries
its own 16 bytes as payload, and padding carries its whole region). -/
def itemBytes (e : Entry) : List Nat :=
  match e.entry with
  | .header _ => e.data
  | .padding => e.data
  | .entry a => serializeEntry a ++ e.data

/-- Exact tiling check: starting from `start`, every item begins exactly
where the previous one ends and the final end is `stop`. -/
def covers : Nat → List Entry → Nat → Bool
  | start, [], stop => start == stop
  | start, e :: rest, stop =>
    (e.offset == start) && covers (start + (itemBytes e).length) rest stop

/-- Offsets of the parsed item list (empty on parse failure). -/
def parsedOffsets (bytes : List Nat) : List Nat :=
  match parse bytes with
  | .ok es => es.map (fun e => e.offset)
  | .error _ => []

/-- Positions at which the record-walking loop of `main` reads a record:
the declared first-record offset of a blob whose header validates, and
the position just past any reachable record that parses in bounds. -/
inductive Reachable (bytes : List Nat) : Nat → Prop where
  | base :
      16 ≤ bytes.length →
      (readHeader bytes).sig = APOB_SIG →
      (readHeader bytes).version = APOB_VERSION →
      16 ≤ (readHeader bytes).offset →
      (readHeader bytes).offset ≤ bytes.length →
      Reachable bytes (readHeader bytes).offset
  | step : ∀ pos,
      Reachable bytes pos →
      pos < bytes.length →
      48 ≤ bytes.length - pos →
      48 ≤ (readEntry (bytes.drop pos)).size →
      (readEntry (bytes.drop pos)).size ≤ bytes.length - pos →
      Reachable bytes (pos + (readEntry (bytes.drop pos)).size)

/-- Reading four in-range bytes and serialising the value back yields the
original four bytes. -/
theorem le32_readLE32 (l : List Nat) (h4 : 4 ≤ l.length)
    (hb : ∀ b ∈ l, b < 256) : le32 (readLE32 l) = l.take 4 := by
  match l, h4 with
  | a :: b :: c :: d :: rest, _ =>
    have ha : a < 256 := hb a (by simp)
    have hbb : b < 256 := hb b (by simp)
    have hc : c < 256 := hb c (by simp)
    have hd : d < 256 := hb d (by simp)
    have e1 : readLE32 (a :: b :: c :: d :: rest)
        = a + 256 * b + 65536 * c + 16777216 * d := rfl
    have e2 : (a :: b :: c :: d :: rest).take 4 = [a, b, c, d] := rfl
    rw [e1, e2]
    simp only [le32, List.cons.injEq, and_true]
    omega

/-- Reading a 48-byte record header from in-range bytes and serialising it
back yields the original 48 bytes. -/
theorem serializeEntry_readEntry (s : List Nat) (h : 48 ≤ s.length)
    (hb : ∀ b ∈ s, b < 256) : serializeEntry (readEntry s) = s.take 48 := by
  have hdb : ∀ n, ∀ b ∈ s.drop n, b < 256 :=
    fun n b hm => hb b (List.mem_of_mem_drop hm)
  have h1 : le32 (readLE32 s) = s.take 4 := le32_readLE32 s (by omega) hb
  have h2 : le32 (readLE32 (s.drop 4)) = (s.drop 4).take 4 :=
    le32_readLE32 _ (by simp; omega) (hdb 4)
  have h3 : le32 (readLE32 (s.drop 8)) = (s.drop 8).take 4 :=
    le32_readLE32 _ (by simp; omega) (hdb 8)
  have h4 : le32 (readLE32 (s.drop 12)) = (s.drop 12).take 4 :=
    le32_readLE32 _ (by simp; omega) (hdb 12)
  show le32 (readLE32 s) ++ le32 (readLE32 (s.drop 4)) ++ le32 (readLE32 (s.drop 8))
      ++ le32 (readLE32 (s.drop 12)) ++ (s.drop 16).take 32 = s.take 48
  rw [h1, h2, h3, h4]
  have t48 : s.take 48 = s.take 16 ++ (s.drop 16).take 32 := by
    rw [← List.take_add]
  have t16 : s.take 16 = s.take 12 ++ (s.drop 12).take 4 := by
    rw [← List.take_add]
  have t12 : s.take 12 = s.take 8 ++ (s.drop 8).take 4 := by
    rw [← List.take_add]
  have t8 : s.take 8 = s.take 4 ++ (s.drop 4).take 4 := by
    rw [← List.take_add]
  rw [t48, t16, t12, t8]

/-- Record walk round-trip: on success, concatenating the full byte
regions of the emitted record items reconstructs the blob from the start
position onward. -/
theorem parseEntries_flatten (bytes : List Nat) (hb : ∀ b ∈ bytes, b < 256) :
    ∀ fuel pos rest, bytes.length - pos < fuel →
      parseEntries bytes pos fuel = .ok rest →
      (rest.map itemBytes).flatten = bytes.drop pos := by
  intro fuel
  induction fuel with
  | zero => intro pos rest hf _; omega
  | succ fuel ih =>
    intro pos rest hf hp
    rw [parseEntries] at hp
    by_cases hpos : pos < bytes.length
    · rw [if_pos hpos] at hp
      by_cases h48 : bytes.length - pos < 48
      · rw [if_pos h48] at hp; exact absurd hp (by simp)
      · rw [if_neg h48] at hp
        by_cases hov : bytes.length - pos < (readEntry (bytes.drop pos)).size
        · rw [if_pos hov] at hp; exact absurd hp (by simp)
        · rw [if_neg hov] at hp
          by_cases hsm : (readEntry (bytes.drop pos)).size < 48
          · rw [if_pos hsm] at hp; exact absurd hp (by simp)
          · rw [if_neg hsm] at hp
            cases hrec : parseEntries bytes (pos + (readEntry (bytes.drop pos)).size) fuel with
            | error err => rw [hrec] at hp; exact absurd hp (by simp)
            | ok rest2 =>
              rw [hrec] at hp
              injection hp with hp2
              subst hp2
              have hflat := ih _ _ (by omega) hrec
              simp only [List.map_cons, List.flatten_cons, hflat]
              have hser := serializeEntry_readEntry (bytes.drop pos)
                (by simp; omega) (fun b hm => hb b (List.mem_of_mem_drop hm))
              simp only [itemBytes, hser]
              have hmin : min 48 (readEntry (bytes.drop pos)).size = 48 := by omega
              rw [show (bytes.drop pos).take 48
                  = ((bytes.drop pos).take (readEntry (bytes.drop pos)).size).take 48 by
                rw [List.take_take, hmin]]
              rw [List.take_append_drop, ← List.drop_drop, List.take_append_drop]
    · rw [if_neg hpos] at hp
      injection hp with hp2
      subst hp2
      simp [List.drop_eq_nil_of_le (show bytes.length ≤ pos by omega)]

/-- Record walk tiling: on success, the emitted record items tile the byte
range from the start position to the end of the blob. -/
theorem parseEntries_covers (bytes : List Nat) :
    ∀ fuel pos rest, bytes.length - pos < fuel → pos ≤ bytes.length →
      parseEntries bytes pos fuel = .ok rest →
      covers pos rest bytes.length = true := by
  intro fuel
  induction fuel with
  | zero => intro pos rest hf _ _; omega
  | succ fuel ih =>
    intro pos rest hf hple hp
    rw [parseEntries] at hp
    by_cases hpos : pos < bytes.length
    · rw [if_pos hpos] at hp
      by_cases h48 : bytes.length - pos < 48
      · rw [if_pos h48] at hp; exact absurd hp (by simp)
      · rw [if_neg h48] at hp
        by_cases hov : bytes.length - pos < (readEntry (bytes.drop pos)).size
        · rw [if_pos hov] at hp; exact absurd hp (by simp)
        · rw [if_neg hov] at hp
          by_cases hsm : (readEntry (bytes.drop pos)).size < 48
          · rw [if_pos hsm] at hp; exact absurd hp (by simp)
          · rw [if_neg hsm] at hp
            cases hrec : parseEntries bytes (pos + (readEntry (bytes.drop pos)).size) fuel with
            | error err => rw [hrec] at hp; exact absurd hp (by simp)
            | ok rest2 =>
              rw [hrec] at hp
              injection hp with hp2
              subst hp2
              have hcov := ih _ _ (by omega) (by omega) hrec
              simp only [covers, beq_self_eq_true, Bool.true_and]
              have hhm : (readEntry (bytes.drop pos)).hmac.length
                  = min 32 (bytes.length - (pos + 16)) := by
                simp [readEntry]
              have hL : (itemBytes
                  { offset := pos, entry := .entry (readEntry (bytes.drop pos)),
                    data := ((bytes.drop pos).take (readEntry (bytes.drop pos)).size).drop 48 }).length
                  = (readEntry (bytes.drop pos)).size := by
                simp only [itemBytes, serializeEntry, le32, List.length_append,
                  List.length_take, List.length_drop, List.length_cons,
                  List.length_nil, hhm]
                omega
              rw [hL, hcov]
    · rw [if_neg hpos] at hp
      injection hp with hp2
      subst hp2
      simp only [covers, beq_iff_eq]
      omega

/-- Tiling implies the item offsets are non-decreasing. -/
theorem covers_chain (stop : Nat) : ∀ (l : List Entry) (start : Nat),
    covers start l stop = true →
    List.Chain' (fun p q : Entry => p.offset ≤ q.offset) l := by
  intro l
  induction l with
  | nil => intro start _; exact List.chain'_nil
  | cons e rest ih =>
    intro start h
    simp only [covers, Bool.and_eq_true, beq_iff_eq] at h
    obtain ⟨he, hrest⟩ := h
    cases rest with
    | nil => simp
    | cons f rest2 =>
      rw [List.chain'_cons]
      have hf := hrest
      simp only [covers, Bool.and_eq_true, beq_iff_eq] at hf
      refine ⟨by omega, ih _ hrest⟩

/-- Error propagation: when the record walk fails with a given error at a
reachable position, the whole parse reports that error (and hence returns
no item list). -/
theorem reachable_error (bytes : List Nat) (err : ParseError) :
    ∀ pos, Reachable bytes pos →
      (∀ fuel, bytes.length - pos < fuel →
        parseEntries bytes pos fuel = .error err) →
      parse bytes = .error err := by
  intro pos hr
  induction hr with
  | base h16 hsig hver hoff hoffle =>
    intro hloc
    rw [parse]
    rw [if_neg (by omega)]
    rw [if_neg (by simp [hsig])]
    rw [if_neg (by simp [hver])]
    rw [if_neg (by omega)]
    rw [if_neg (by omega)]
    rw [hloc (bytes.length + 1) (by omega)]
  | step pos hpr hpos h48 hs48 hsle ih =>
    intro hloc
    apply ih
    intro fuel hf
    cases fuel with
    | zero => omega
    | succ f =>
      rw [parseEntries]
      rw [if_pos hpos, if_neg (by omega), if_neg (by omega), if_neg (by omega)]
      rw [hloc f (by omega)]

end Cli

/-- C1 (amended): for every blob that parses successfully, the emitted
items tile the blob exactly — the first item starts at offset 0, every
item begins exactly where the previous one ends, and the final end is the
blob length (so there are no gaps and no overlaps and offsets are
non-decreasing; an empty padding item may share its offset with the first
record, so the ordering is non-strict) — and concatenating each item
region (the 48 record-header bytes plus raw payload for records, the raw
region for header and padding items) reconstructs the blob
byte-for-byte. -/
theorem claim_C1 (bytes : List Nat) (entries : List Cli.Entry)
    (hb : ∀ b ∈ bytes, b < 256) (h : Cli.parse bytes = .ok entries) :
    Cli.covers 0 entries bytes.length = true ∧
    (entries.map Cli.itemBytes).flatten = bytes ∧
    List.Chain' (fun p q : Cli.Entry => p.offset ≤ q.offset) entries := by
  rw [Cli.parse] at h
  by_cases hlen : bytes.length < 16
  · rw [if_pos hlen] at h; exact absurd h (by simp)
  · rw [if_neg hlen] at h
    by_cases hsig : (Cli.readHeader bytes).sig ≠ Apob.APOB_SIG
    · rw [if_pos hsig] at h; exact absurd h (by simp)
    · rw [if_neg hsig] at h
      by_cases hver : (Cli.readHeader bytes).version ≠ Apob.APOB_VERSION
      · rw [if_pos hver] at h; exact absurd h (by simp)
      · rw [if_neg hver] at h
        by_cases hoff : (Cli.readHeader bytes).offset < 16
        · rw [if_pos hoff] at h; exact absurd h (by simp)
        · rw [if_neg hoff] at h
          by_cases hpad : bytes.length < (Cli.readHeader bytes).offset
          · rw [if_pos hpad] at h; exact absurd h (by simp)
          · rw [if_neg hpad] at h
            cases hrec : Cli.parseEntries bytes (Cli.readHeader bytes).offset
                (bytes.length + 1) with
            | error e => rw [hrec] at h; exact absurd h (by simp)
            | ok rest =>
              rw [hrec] at h
              injection h with h2
              subst h2
              have hcov := Cli.parseEntries_covers bytes (bytes.length + 1)
                (Cli.readHeader bytes).offset rest (by omega) (by omega) hrec
              have hflat := Cli.parseEntries_flatten bytes hb (bytes.length + 1)
                (Cli.readHeader bytes).offset rest (by omega) hrec
              have hlH : (Cli.itemBytes
                  { offset := 0, entry := Cli.Item.header (Cli.readHeader bytes),
                    data := bytes.take 16 }).length = 16 := by
                simp [Cli.itemBytes]; omega
              have hlP : (Cli.itemBytes
                  { offset := 16, entry := Cli.Item.padding,
                    data := (bytes.take (Cli.readHeader bytes).offset).drop 16 }).length
                  = (Cli.readHeader bytes).offset - 16 := by
                simp [Cli.itemBytes]; omega
              have hcov0 : Cli.covers 0
                  ({ offset := 0, entry := Cli.Item.header (Cli.readHeader bytes),
                     data := bytes.take 16 }
                    :: { offset := 16, entry := Cli.Item.padding,
                         data := (bytes.take (Cli.readHeader bytes).offset).drop 16 }
                    :: rest) bytes.length = true := by
                simp only [Cli.covers, hlH, hlP, Nat.zero_add, beq_self_eq_true,
                  Bool.true_and]
                rw [show 16 + ((Cli.readHeader bytes).offset - 16)
                    = (Cli.readHeader bytes).offset by omega]
                exact hcov
              refine ⟨hcov0, ?_, Cli.covers_chain _ _ _ hcov0⟩
              simp only [List.map_cons, List.flatten_cons, hflat, Cli.itemBytes]
              have ht : (bytes.take (Cli.readHeader bytes).offset).take 16
                  = bytes.take 16 := by
                rw [List.take_take, show min 16 (Cli.readHeader bytes).offset = 16 by omega]
              rw [← ht, ← List.append_assoc, List.take_append_drop,
                List.take_append_drop]

/-- Concrete 64-byte blob: a valid header with first-record offset 16
(empty padding) followed by one record of size exactly 48 (empty
payload). -/
def blob64 : List Nat :=
  [65, 80, 79, 66, 24, 0, 0, 0, 64, 0, 0, 0, 16, 0, 0, 0,
   1, 0, 0, 0, 22, 0, 0, 0, 0, 0, 0, 0, 48, 0, 0, 0] ++ List.replicate 32 0

/-- Item list produced by parsing `blob64`. -/
def es64 : List Cli.Entry :=
  [{ offset := 0,
     entry := .header { sig := [65, 80, 79, 66], version := 24, size := 64, offset := 16 },
     data := [65, 80, 79, 66, 24, 0, 0, 0, 64, 0, 0, 0, 16, 0, 0, 0] },
   { offset := 16, entry := .padding, data := [] },
   { offset := 16,
     entry := .entry { group := 1, ty := 22, inst := 0, size := 48,
                       hmac := List.replicate 32 0 },
     data := [] }]

/-- Evaluation of the parser on the concrete blob. -/
theorem parse_blob64 : Cli.parse blob64 = .ok es64 := by rfl

/-- C1 counterexample: on `blob64` the parse succeeds and the item
offsets are `[0, 16, 16]` — the empty padding item and the first record
share offset 16 — so the emitted items are NOT strictly ordered by
starting offset as the claim states. -/
theorem claim_C1_counterexample :
    Cli.parsedOffsets blob64 = [0, 16, 16] ∧
    ¬ List.Chain' (fun p q : Nat => p < q) (Cli.parsedOffsets blob64) := by
  constructor
  · rfl
  · rw [show Cli.parsedOffsets blob64 = [0, 16, 16] from rfl]
    intro h
    rw [List.chain'_cons, List.chain'_cons] at h
    exact absurd h.2.1 (by omega)

/-- C1 witness: the amended claim instantiated at the concrete blob. -/
theorem claim_C1_witness :
    Cli.covers 0 es64 blob64.length = true ∧
    (es64.map Cli.itemBytes).flatten = blob64 ∧
    List.Chain' (fun p q : Cli.Entry => p.offset ≤ q.offset) es64 :=
  claim_C1 blob64 es64 (by decide) parse_blob64

/-- C2: whenever the record walk reaches a position whose record declares
a size exceeding the bytes remaining, the parse fails with the
record-overrun error (the panic site at the slice
`data[pos..][..entry.size]`) and no item list is returned — parsing is
all-or-nothing. -/
theorem claim_C2 (bytes : List Nat) (pos : Nat) (hr : Cli.Reachable bytes pos)
    (hpos : pos < bytes.length) (h48 : 48 ≤ bytes.length - pos)
    (hov : bytes.length - pos < (Cli.readEntry (bytes.drop pos)).size) :
    Cli.parse bytes = .error .recordOverrun ∧
    ∀ entries, Cli.parse bytes ≠ .ok entries := by
  have hmain : Cli.parse bytes = .error .recordOverrun := by
    apply Cli.reachable_error bytes .recordOverrun pos hr
    intro fuel hf
    cases fuel with
    | zero => omega
    | succ f =>
      rw [Cli.parseEntries, if_pos hpos, if_neg (by omega), if_pos hov]
  refine ⟨hmain, fun entries hcontra => ?_⟩
  rw [hmain] at hcontra
  exact absurd hcontra (by simp)

/-- Concrete 64-byte blob whose single record declares size 100 with only
48 bytes remaining. -/
def blobOver : List Nat :=
  [65, 80, 79, 66, 24, 0, 0, 0, 64, 0, 0, 0, 16, 0, 0, 0,
   1, 0, 0, 0, 22, 0, 0, 0, 0, 0, 0, 0, 100, 0, 0, 0] ++ List.replicate 32 0

/-- C2 witness: the overrun blob is rejected wholesale with the
record-overrun error. -/
theorem claim_C2_witness :
    Cli.parse blobOver = .error .recordOverrun ∧
    ∀ entries, Cli.parse blobOver ≠ .ok entries := by
  have hr : Cli.Reachable blobOver 16 :=
    Cli.Reachable.base (by decide) (by rfl) (by rfl) (by decide) (by decide)
  exact claim_C2 blobOver 16 hr (by decide) (by decide) (by decide)

namespace Cli

open Apob

/-- Little-endian 16-bit read from the first two bytes of a list. -/
def readLE16 (l : List Nat) : Nat :=
  l.getD 0 0 + 256 * l.getD 1 0

/-- Little-endian 64-bit read from the first eight bytes of a list. -/
def readLE64 (l : List Nat) : Nat :=
  readLE32 l + 4294967296 * readLE32 (l.drop 4)

/-- One event of the Milan event log (`MilanApobEvent`): class, info and
two data words.  The class field is named `cls` because `class` is a
keyword here. -/
structure MilanApobEvent where
  cls : Nat
  info : Nat
  data0 : Nat
  data1 : Nat
deriving DecidableEq, Repr

/-- Event-log payload (`MilanApobEventLog`): `count:u16`, 2 bytes of
padding, then 64 fixed event slots of 16 bytes each — 1028 bytes. -/
structure MilanApobEventLog where
  count : Nat
  events : List MilanApobEvent
deriving DecidableEq, Repr

/-- System-memory-map fixed part (`ApobSysMemMap`): `high_phys:u64`,
`hole_count:u32`, 4 bytes of padding — 16 bytes. -/
structure ApobSysMemMap where
  high_phys : Nat
  hole_count : Nat
deriving DecidableEq, Repr

/-- One memory-map hole (`ApobSysMemMapHole`): `base:u64`, `size:u64`,
`ty:u32`, 4 bytes of padding — 24 bytes. -/
structure ApobSysMemMapHole where
  base : Nat
  size : Nat
  ty : Nat
deriving DecidableEq, Repr

/-- One PMU training-failure entry (`PmuTfiEntry`): the bit-packed word,
an error code and four data words — 24 bytes. -/
structure PmuTfiEntry where
  bits : PmuTfiEntryBitfield
  error : Nat
  data : List Nat
deriving DecidableEq, Repr

/-- PMU training-failure payload (`PmuTfi`): `nvalid:u32` then 40 fixed
entry slots of 24 bytes each — 964 bytes. -/
structure PmuTfi where
  nvalid : Nat
  entries : List PmuTfiEntry
deriving DecidableEq, Repr

/-- Field read of one 16-byte event. -/
def readEvent (b : List Nat) : MilanApobEvent :=
  { cls := readLE32 b, info := readLE32 (b.drop 4),
    data0 := readLE32 (b.drop 8), data1 := readLE32 (b.drop 12) }

/-- Models `MilanApobEventLog::ref_from_prefix(data)`: the zerocopy
conversion succeeds only when the payload holds the whole 1028-byte
structure; `none` marks the case the Rust callers `unwrap`, i.e. a
panic. -/
def readEventLog (data : List Nat) : Option MilanApobEventLog :=
  if 1028 ≤ data.length then
    some { count := readLE16 data,
           events := (List.range 64).map
             (fun i => readEvent (data.drop (4 + 16 * i))) }
  else none

/-- Models `ApobSysMemMap::ref_from_prefix(data)` followed by
`<[ApobSysMemMapHole]>::ref_from_bytes(rest)`: the first conversion needs
16 bytes and the second needs the remainder to be an exact multiple of
the 24-byte hole size; `none` marks the unwrapped panics. -/
def readSysMemMap (data : List Nat) :
    Option (ApobSysMemMap × List ApobSysMemMapHole) :=
  if 16 ≤ data.length then
    if (data.length - 16) % 24 = 0 then
      some ({ high_phys := readLE64 data, hole_count := readLE32 (data.drop 8) },
            (List.range ((data.length - 16) / 24)).map (fun i =>
              { base := readLE64 ((data.drop 16).drop (24 * i)),
                size := readLE64 ((data.drop 16).drop (24 * i + 8)),
                ty := readLE32 ((data.drop 16).drop (24 * i + 16)) }))
    else none
  else none

/-- Field read of one 24-byte training-failure entry. -/
def readTfiEntry (b : List Nat) : PmuTfiEntry :=
  { bits := ⟨readLE32 b⟩, error := readLE32 (b.drop 4),
    data := [readLE32 (b.drop 8), readLE32 (b.drop 12),
             readLE32 (b.drop 16), readLE32 (b.drop 20)] }

/-- Models `PmuTfi::ref_from_prefix(data)`: needs the whole 964-byte
structure; `none` marks the unwrapped panic. -/
def readPmuTfi (data : List Nat) : Option PmuTfi :=
  if 964 ≤ data.length then
    some { nvalid := readLE32 data,
           entries := (List.range 40).map
             (fun i => readTfiEntry (data.drop (4 + 24 * i))) }
  else none

/-- Specialized-view tags of `app.rs` (`SpecializedTag`). -/
inductive SpecializedTag where
  | header
  | eventLog
  | memMap
  | pmuTrainingFailure
deriving DecidableEq, Repr

/-- Classifier `App::specialized` of `app.rs`: exact (group, type) match
against the fixed table; the header item always maps to the header tag;
padding never matches.  The type field is compared raw (not masked). -/
def specialized : Item → Option SpecializedTag
  | .entry h =>
    if h.group_of = some .GENERAL ∧ h.ty = 6 then some .eventLog
    else if h.group_of = some .FABRIC ∧ h.ty = 9 then some .memMap
    else if h.group_of = some .MEMORY ∧ h.ty = 22 then some .pmuTrainingFailure
    else none
  | .header _ => some .header
  | .padding => none

/-- Byte size of the fixed structure each specialized decoder overlays
(0 for the header view, which reads no payload bytes). -/
def structSize : SpecializedTag → Nat
  | .header => 0
  | .eventLog => 1028
  | .memMap => 16
  | .pmuTrainingFailure => 964

/-- Content of a successfully rendered specialized sub-view: exactly the
leading `count`/`hole_count`/`nvalid` elements the code iterates. -/
inductive SpecializedView where
  | header (h : ApobHeader)
  | eventLog (count : Nat) (events : List MilanApobEvent)
  | memMap (high_phys : Nat) (holes : List ApobSysMemMapHole)
  | pmuTrainingFailure (nvalid : Nat) (entries : List PmuTfiEntry)
deriving DecidableEq, Repr

/-- Models `App::render_specialized` (`app.rs` lines 293-594): decodes
the selected payload with the tagged decoder and slices the leading
valid elements.  A `none` result marks a panic: either the unwrapped
zerocopy conversion failed (payload shorter than the fixed structure, or
a hole remainder that is not a multiple of 24), or the valid-count slice
`[..count]` exceeds the physical array, or the header tag meets a
non-header item (the `let ... else panic!` arm). -/
def render_specialized (s : SpecializedTag) (e : Entry) : Option SpecializedView :=
  match s with
  | .memMap =>
    match readSysMemMap e.data with
    | none => none
    | some (map, holes) =>
      if map.hole_count ≤ holes.length then
        some (.memMap map.high_phys (holes.take map.hole_count))
      else none
  | .eventLog =>
    match readEventLog e.data with
    | none => none
    | some log =>
      if log.count ≤ 64 then some (.eventLog log.count (log.events.take log.count))
      else none
  | .header =>
    match e.entry with
    | .header h => some (.header h)
    | _ => none
  | .pmuTrainingFailure =>
    match readPmuTfi e.data with
    | none => none
    | some tfi =>
      if tfi.nvalid ≤ 40 then
        some (.pmuTrainingFailure tfi.nvalid (tfi.entries.take tfi.nvalid))
      else none

/-- Byte-grouping widths of the hex pane (`DataGrouping` in `app.rs`). -/
inductive DataGrouping where
  | byte
  | word
  | doubleWord
  | quadWord
deriving DecidableEq, Repr

/-- Width in bytes of one group (`DataGrouping::bytes`). -/
def DataGrouping.bytes : DataGrouping → Nat
  | .byte => 1
  | .word => 2
  | .doubleWord => 4
  | .quadWord => 8

/-- Endianness of the hex pane (`Endian` in `app.rs`). -/
inductive Endian where
  | little
  | big
deriving DecidableEq, Repr

/-- The usize wrap modulus. -/
def U64 : Nat := 18446744073709551616

/-- Wrapping usize subtraction as in a release build (a debug build
panics on the same underflow). -/
def usizeSub (a b : Nat) : Nat := (a + U64 - b) % U64

/-- Browser state (`struct App` in `app.rs`).  `item_state` and
`data_state` model the `selected()` cell of the two ratatui
`TableState`s (their render-offset cells, used only for mouse-click row
translation, are not modelled); `data_scroll_cache` models the
`HashMap<usize, usize>` as an association list with unique keys;
`specialized_state` is omitted — it holds only the sub-table cursor of
the rendered specialized view, which no claim touches. -/
structure App where
  items : List Entry
  item_state : Option Nat
  data_state : Option Nat
  data_scroll_cache : List (Nat × Nat)
  data_scroll_max : Nat
  data_width : Nat
  data_endian : Endian
  data_focus : Bool
  data_grouping : DataGrouping
  data_colors : Bool
  window_height : Nat
deriving DecidableEq, Repr

/-- Cache read: `data_scroll_cache.get(&i).cloned().unwrap_or(0)`. -/
def cacheGet (c : List (Nat × Nat)) (i : Nat) : Nat :=
  (List.lookup i c).getD 0

/-- Cache write: `data_scroll_cache.insert(i, v)` (replace or add). -/
def cacheInsert (c : List (Nat × Nat)) (i v : Nat) : List (Nat × Nat) :=
  (i, v) :: c.filter (fun p => p.1 != i)

/-- Models `App::set_item_scroll`: select item `i`, restore its
remembered payload row (default 0), recompute the page count as
`items[i].data.len().div_ceil(data_width)`.  The `items[i]` index panics
when out of range, modelled by `none`. -/
def App.set_item_scroll (a : App) (i : Nat) : Option App :=
  match a.items[i]? with
  | none => none
  | some it =>
    some { a with
      item_state := some i
      data_state := some (cacheGet a.data_scroll_cache i)
      data_scroll_max := (it.data.length + a.data_width - 1) / a.data_width }

/-- Models `App::set_data_scroll`: remember row `i` for the selected item
and move the payload cursor there. -/
def App.set_data_scroll (a : App) (i : Nat) : App :=
  { a with
    data_scroll_cache :=
      match a.item_state with
      | some j => cacheInsert a.data_scroll_cache j i
      | none => a.data_scroll_cache
    data_state := some i }

/-- Models `App::next_item_row`: `(i + d).min(items.len() - 1)` then
select. -/
def App.next_item_row (a : App) (d : Nat) : Option App :=
  a.set_item_scroll
    (match a.item_state with
     | some i => min (i + d) (usizeSub a.items.length 1)
     | none => 0)

/-- Models `App::prev_item_row`: `i.saturating_sub(d)` then select. -/
def App.prev_item_row (a : App) (d : Nat) : Option App :=
  a.set_item_scroll
    (match a.item_state with
     | some i => i - d
     | none => 0)

/-- Models `App::next_data_row`: `(i + d).min(data_scroll_max - 1)` then
set the data scroll; the subtraction underflows when the page count is
zero (empty payload). -/
def App.next_data_row (a : App) (d : Nat) : App :=
  a.set_data_scroll
    (match a.data_state with
     | some i => min (i + d) (usizeSub a.data_scroll_max 1)
     | none => 0)

/-- Models `App::prev_data_row`: `i.saturating_sub(d)` then set. -/
def App.prev_data_row (a : App) (d : Nat) : App :=
  a.set_data_scroll
    (match a.data_state with
     | some i => i - d
     | none => 0)

/-- Models `App::resize_data` (`app.rs` lines 600-612): when the hex-row
byte width changes, every cached row is rescaled by
`row * old_width / new_width`, the selected row is rescaled and
re-stored, and only then is the width updated. -/
def App.resize_data (a : App) (w : Nat) : App :=
  if w ≠ a.data_width then
    let a1 := { a with
      data_scroll_cache :=
        a.data_scroll_cache.map
          (fun p : Nat × Nat => (p.1, p.2 * a.data_width / w)) }
    let a2 := match a1.data_state with
      | some row => a1.set_data_scroll (row * a.data_width / w)
      | none => a1
    { a2 with data_width := w }
  else a

/-- Models the grouping-key arms of the event loop
(`KeyCode::Char` 1/2/4/8 in `App::run`): only the grouping field is
assigned. -/
def App.key_grouping (a : App) (g : DataGrouping) : App :=
  { a with data_grouping := g }

/-- Models `App::new`: default fields, then `set_item_scroll(0)`. -/
def App.new (items : List Entry) : Option App :=
  App.set_item_scroll
    { items := items, item_state := some 0, data_state := some 0,
      data_scroll_cache := [], data_scroll_max := 1, data_grouping := .byte,
      data_width := 8, data_endian := .little, data_focus := false,
      data_colors := false, window_height := 16 } 0

/-- Payload-pane scroll operations a user can perform while an item stays
selected. -/
inductive DataOp where
  | next (d : Nat)
  | prev (d : Nat)
  | set (r : Nat)
deriving DecidableEq, Repr

/-- Apply one payload-scroll operation. -/
def App.applyDataOp (a : App) : DataOp → App
  | .next d => a.next_data_row d
  | .prev d => a.prev_data_row d
  | .set r => a.set_data_scroll r

/-- Apply a sequence of payload-scroll operations. -/
def App.applyDataOps (a : App) (ops : List DataOp) : App :=
  ops.foldl App.applyDataOp a

/-- Momentum bookkeeping of one iteration of `App::run` (lines 94-217):
`ready` is the result of `event::poll` (an event arrived within the
50 ms timeout) and `isWheel` whether the event is a wheel scroll.
Returns the next momentum value and the delta applied when the event is
a wheel event. -/
def momentumStep (m : Nat) (ready : Bool) (isWheel : Bool) : Nat × Option Nat :=
  let m1 := if ready then m else 1
  if isWheel then
    (if ready then min (m1 + 1) 16 else 1, some m1)
  else (1, none)

/-- Deltas applied at the wheel events of an event trace, threading the
momentum value. -/
def wheelDeltas : Nat → List (Bool × Bool) → List Nat
  | _, [] => []
  | m, (ready, isWheel) :: rest =>
    match momentumStep m ready isWheel with
    | (m2, some d) => d :: wheelDeltas m2 rest
    | (m2, none) => wheelDeltas m2 rest

/-- Clamp check for the payload cursor: the row is below the page count
(or 0 when there are no pages). -/
def dataRowClamped (a : App) : Bool :=
  match a.data_state with
  | some r => r < max a.data_scroll_max 1
  | none => true

/-- Validity check for the item cursor. -/
def itemIdxOk (a : App) : Bool :=
  match a.item_state with
  | some i => i < a.items.length
  | none => true

/-- One drawn frame for a selected item, as far as the claims are
concerned: the raw hex pane bytes and the optional specialized pane. -/
structure DrawOutput where
  raw : List Nat
  sub : Option SpecializedView
deriving DecidableEq, Repr

/-- Models the specialized portion of `App::draw`: when the classifier
yields a tag, the specialized renderer runs, and a panic there
(`none`) aborts the whole draw — there is no fallback path. -/
def drawItem (e : Entry) : Option DrawOutput :=
  match specialized e.entry with
  | none => some { raw := e.data, sub := none }
  | some tag =>
    match render_specialized tag e with
    | none => none
    | some v => some { raw := e.data, sub := some v }

end Cli

/-- Concrete record item recognized as an event log (group 7 = GENERAL,
type 6) whose payload is empty, hence shorter than the 1028-byte
event-log structure. -/
def exTrunc : Cli.Entry :=
  { offset := 64,
    entry := .entry { group := 7, ty := 6, inst := 0, size := 48,
                      hmac := List.replicate 32 0 },
    data := [] }

/-- C3 counterexample: on a recognized item whose payload is shorter than
the fixed structure, the draw does NOT fall back to a raw-only view —
the renderer unwraps the failed zerocopy conversion and the program
panics (modelled by `drawItem = none`), so no Truncated error is
returned, the raw payload is not displayed, and the session dies. -/
theorem claim_C3_counterexample :
    Cli.specialized exTrunc.entry = some .eventLog ∧
    exTrunc.data.length < Cli.structSize .eventLog ∧
    Cli.drawItem exTrunc = none ∧
    Cli.drawItem exTrunc ≠ some { raw := exTrunc.data, sub := none } := by
  refine ⟨by decide, by decide, by decide, by decide⟩

/-- C3 (amended): for every recognized specialized payload shorter than
the fixed-size structure of its decoder, the decoder yields no view and
the rendering path propagates the unwrapped failure: the specialized
renderer and the whole draw abort (there is no Truncated error value and
no raw-only fallback in the code). -/
theorem claim_C3 (e : Cli.Entry) (tag : Cli.SpecializedTag)
    (hspec : Cli.specialized e.entry = some tag)
    (hlen : e.data.length < Cli.structSize tag) :
    Cli.render_specialized tag e = none ∧ Cli.drawItem e = none := by
  cases tag with
  | header => exact absurd hlen (by simp [Cli.structSize])
  | eventLog =>
    simp only [Cli.structSize] at hlen
    have hnone : Cli.readEventLog e.data = none := by
      unfold Cli.readEventLog
      rw [if_neg (by omega)]
    constructor
    · simp [Cli.render_specialized, hnone]
    · simp [Cli.drawItem, hspec, Cli.render_specialized, hnone]
  | memMap =>
    simp only [Cli.structSize] at hlen
    have hnone : Cli.readSysMemMap e.data = none := by
      unfold Cli.readSysMemMap
      rw [if_neg (by omega)]
    constructor
    · simp [Cli.render_specialized, hnone]
    · simp [Cli.drawItem, hspec, Cli.render_specialized, hnone]
  | pmuTrainingFailure =>
    simp only [Cli.structSize] at hlen
    have hnone : Cli.readPmuTfi e.data = none := by
      unfold Cli.readPmuTfi
      rw [if_neg (by omega)]
    constructor
    · simp [Cli.render_specialized, hnone]
    · simp [Cli.drawItem, hspec, Cli.render_specialized, hnone]

/-- C3 witness: the amended claim instantiated at the concrete truncated
event-log item. -/
theorem claim_C3_witness :
    Cli.render_specialized .eventLog exTrunc = none ∧
    Cli.drawItem exTrunc = none :=
  claim_C3 exTrunc .eventLog (by decide) (by decide)

namespace Cli

/-- Wrapping subtraction of one coincides with ordinary subtraction for a
positive value in usize range. -/
theorem usizeSub_one {n : Nat} (h1 : 1 ≤ n) (h2 : n < U64) :
    usizeSub n 1 = n - 1 := by
  unfold usizeSub U64
  unfold U64 at h2
  omega

/-- Selecting an in-range item always succeeds and produces the expected
state fields. -/
theorem set_item_scroll_lt (a : App) (i : Nat) (h : i < a.items.length) :
    ∃ b, a.set_item_scroll i = some b ∧ b.item_state = some i ∧
      b.items = a.items ∧ b.data_scroll_cache = a.data_scroll_cache ∧
      b.data_state = some (cacheGet a.data_scroll_cache i) := by
  unfold App.set_item_scroll
  rw [List.getElem?_eq_getElem h]
  exact ⟨_, rfl, rfl, rfl, rfl, rfl⟩

/-- Setting the data scroll moves the payload cursor to the given row. -/
theorem set_data_scroll_state (a : App) (r : Nat) :
    (a.set_data_scroll r).data_state = some r := rfl

end Cli

/-- Browser state right after loading the concrete blob: the state
`App::new(es64)` produces (header item selected, page count 2). -/
def app0 : Cli.App :=
  { items := es64, item_state := some 0, data_state := some 0,
    data_scroll_cache := [], data_scroll_max := 2, data_width := 8,
    data_endian := .little, data_focus := false, data_grouping := .byte,
    data_colors := false, window_height := 16 }

/-- Loading the parsed item list of the concrete blob yields `app0`. -/
theorem new_es64 : Cli.App.new es64 = some app0 := by rfl

/-- C4 counterexample: starting from the state loaded from the concrete
blob, selecting the empty padding item (a reachable browser operation)
and then scrolling the payload down by 1 leaves the cursor at row 1
while the page count is 0: the bound `data_scroll_max - 1` underflowed
(wrapping in release, panicking in debug), so the operation is NOT
clamped, contradicting the claim that all operations are total and
clamped even for empty payloads. -/
theorem claim_C4_counterexample :
    (app0.next_item_row 1).map (fun a =>
        ((a.next_data_row 1).data_state, a.data_scroll_max,
          Cli.dataRowClamped (a.next_data_row 1)))
      = some (some 1, 0, false) := by rfl

/-- C4 (amended): provided the selected payload has at least one page
(`data_scroll_max ≥ 1`) and the item list is non-empty, every browser
operation is total and clamped: item moves succeed with an in-range
index, the next-data move lands strictly below the page count, the
prev-data move never increases the row, and set-scroll stores the given
row.  With an empty payload (`data_scroll_max = 0`) the bound
`data_scroll_max - 1` underflows and next-data is unclamped. -/
theorem claim_C4 (a : Cli.App) (d : Nat)
    (hlen : a.items.length < Cli.U64)
    (hne : a.items.length ≠ 0)
    (hidx : Cli.itemIdxOk a = true)
    (hsm : a.data_scroll_max < Cli.U64)
    (hmax : 1 ≤ a.data_scroll_max) :
    (∃ b, a.next_item_row d = some b ∧ Cli.itemIdxOk b = true) ∧
    (∃ b, a.prev_item_row d = some b ∧ Cli.itemIdxOk b = true) ∧
    (∀ r, (a.next_data_row d).data_state = some r → r < a.data_scroll_max) ∧
    (∀ i r, a.data_state = some i →
      (a.prev_data_row d).data_state = some r → r ≤ i) ∧
    (a.set_data_scroll d).data_state = some d := by
  refine ⟨?_, ?_, ?_, ?_, Cli.set_data_scroll_state a d⟩
  · cases hst : a.item_state with
    | none =>
      obtain ⟨b, hb, hbi, hbitems, -, -⟩ :=
        Cli.set_item_scroll_lt a 0 (by omega)
      refine ⟨b, ?_, ?_⟩
      · simp only [Cli.App.next_item_row, hst]
        exact hb
      · simp [Cli.itemIdxOk, hbi, hbitems]; omega
    | some i0 =>
      have hub : Cli.usizeSub a.items.length 1 = a.items.length - 1 :=
        Cli.usizeSub_one (by omega) hlen
      have hlt : min (i0 + d) (Cli.usizeSub a.items.length 1) < a.items.length := by
        rw [hub]; omega
      obtain ⟨b, hb, hbi, hbitems, -, -⟩ := Cli.set_item_scroll_lt a _ hlt
      refine ⟨b, ?_, ?_⟩
      · simp only [Cli.App.next_item_row, hst]
        exact hb
      · simp [Cli.itemIdxOk, hbi, hbitems, hlt]
  · cases hst : a.item_state with
    | none =>
      obtain ⟨b, hb, hbi, hbitems, -, -⟩ :=
        Cli.set_item_scroll_lt a 0 (by omega)
      refine ⟨b, ?_, ?_⟩
      · simp only [Cli.App.prev_item_row, hst]
        exact hb
      · simp [Cli.itemIdxOk, hbi, hbitems]; omega
    | some i0 =>
      have hi0 : i0 < a.items.length := by
        simp [Cli.itemIdxOk, hst] at hidx
        exact hidx
      obtain ⟨b, hb, hbi, hbitems, -, -⟩ :=
        Cli.set_item_scroll_lt a (i0 - d) (by omega)
      refine ⟨b, ?_, ?_⟩
      · simp only [Cli.App.prev_item_row, hst]
        exact hb
      · simp [Cli.itemIdxOk, hbi, hbitems]; omega
  · intro r hr
    cases hst : a.data_state with
    | none =>
      simp only [Cli.App.next_data_row, hst, Cli.set_data_scroll_state] at hr
      injection hr with hr2
      omega
    | some i0 =>
      have hub : Cli.usizeSub a.data_scroll_max 1 = a.data_scroll_max - 1 :=
        Cli.usizeSub_one hmax hsm
      simp only [Cli.App.next_data_row, hst, Cli.set_data_scroll_state] at hr
      injection hr with hr2
      rw [← hr2, hub]
      omega
  · intro i r hi hr
    simp only [Cli.App.prev_data_row, hi, Cli.set_data_scroll_state] at hr
    injection hr with hr2
    omega

/-- C4 witness: the amended claim instantiated at the loaded state of the
concrete blob with delta 1. -/
theorem claim_C4_witness :
    (∃ b, app0.next_item_row 1 = some b ∧ Cli.itemIdxOk b = true) ∧
    (∃ b, app0.prev_item_row 1 = some b ∧ Cli.itemIdxOk b = true) ∧
    (∀ r, (app0.next_data_row 1).data_state = some r → r < app0.data_scroll_max) ∧
    (∀ i r, app0.data_state = some i →
      (app0.prev_data_row 1).data_state = some r → r ≤ i) ∧
    (app0.set_data_scroll 1).data_state = some 1 :=
  claim_C4 app0 1 (by decide) (by decide) (by decide) (by decide) (by decide)

namespace Cli

/-- Association-list lookup finds the stored value when keys are
unique. -/
theorem lookup_eq_of_mem {c : List (Nat × Nat)} {j v : Nat}
    (hnd : (c.map Prod.fst).Nodup) (hm : (j, v) ∈ c) :
    List.lookup j c = some v := by
  induction c with
  | nil => cases hm
  | cons q rest ih =>
    obtain ⟨k, w⟩ := q
    simp only [List.map_cons, List.nodup_cons] at hnd
    rcases List.mem_cons.mp hm with heq | hmem
    · cases heq
      simp [List.lookup_cons]
    · have hjk : ¬ j = k := by
        intro h
        subst h
        exact hnd.1 (List.mem_map_of_mem Prod.fst hmem)
      rw [List.lookup_cons, show (j == k) = false by simpa using hjk]
      exact ih hnd.2 hmem

end Cli

/-- Browser state with a remembered scroll row of 8 for item 0 at
grouping width 1 (byte). -/
def appG : Cli.App :=
  { app0 with data_scroll_cache := [(0, 8)], data_state := some 8 }

/-- C7 counterexample: pressing a grouping key (width 1 to width 8)
changes only the grouping field — the remembered per-item scroll rows are
NOT rescaled, and the scroll position is untouched — whereas the claim
formula `new_row = old_row * old_width / new_width` demands every cached
row change from 8 to 1. -/
theorem claim_C7_counterexample :
    appG.data_grouping = .byte ∧
    (appG.key_grouping .quadWord).data_grouping = .quadWord ∧
    (appG.key_grouping .quadWord).data_scroll_cache = [(0, 8)] ∧
    appG.data_scroll_cache.map (fun p : Nat × Nat =>
        (p.1, p.2 * appG.data_grouping.bytes / Cli.DataGrouping.quadWord.bytes))
      = [(0, 1)] ∧
    ((0, 8) : Nat × Nat) ≠ (0, 1) := by
  refine ⟨rfl, rfl, rfl, rfl, by decide⟩

/-- C7 (amended): the rescale `new_row = old_row * old_width / new_width`
runs in `resize_data`, which fires when the hex-row byte width (8 or 16,
chosen from the viewport width at draw time) changes — not when the
byte-grouping width (1/2/4/8) changes: there it applies to every cached
per-item row (and re-stores the active row), while the grouping keys
leave every scroll row and the cache untouched. -/
theorem claim_C7 (a : Cli.App) (w : Nat) (g : Cli.DataGrouping)
    (hw : w ≠ a.data_width)
    (hnd : (a.data_scroll_cache.map Prod.fst).Nodup)
    (hsync : ∀ j r, a.item_state = some j → a.data_state = some r →
      Cli.cacheGet a.data_scroll_cache j = r) :
    (∀ p ∈ a.data_scroll_cache,
      (p.1, p.2 * a.data_width / w) ∈ (a.resize_data w).data_scroll_cache) ∧
    (a.key_grouping g).data_scroll_cache = a.data_scroll_cache ∧
    (a.key_grouping g).data_state = a.data_state := by
  refine ⟨?_, rfl, rfl⟩
  intro p hp
  rw [Cli.App.resize_data, if_pos hw]
  cases hds : a.data_state with
  | none =>
    simpa using List.mem_map_of_mem
      (fun p : Nat × Nat => (p.1, p.2 * a.data_width / w)) hp
  | some row =>
    show (p.1, p.2 * a.data_width / w) ∈
      (Cli.App.set_data_scroll _ (row * a.data_width / w)).data_scroll_cache
    rw [Cli.App.set_data_scroll]
    cases hit : a.item_state with
    | none =>
      simpa using List.mem_map_of_mem
        (fun p : Nat × Nat => (p.1, p.2 * a.data_width / w)) hp
    | some j =>
      obtain ⟨k, v⟩ := p
      show (k, v * a.data_width / w) ∈
        Cli.cacheInsert
          (a.data_scroll_cache.map
            (fun p : Nat × Nat => (p.1, p.2 * a.data_width / w)))
          j (row * a.data_width / w)
      by_cases hkj : k = j
      · subst hkj
        have hrow : Cli.cacheGet a.data_scroll_cache k = row := hsync k row hit hds
        have hlook : List.lookup k a.data_scroll_cache = some v :=
          Cli.lookup_eq_of_mem hnd hp
        have hv : v = row := by
          rw [Cli.cacheGet, hlook] at hrow
          simpa using hrow
        rw [Cli.cacheInsert, hv]
        exact List.mem_cons_self _ _
      · apply List.mem_cons_of_mem
        rw [List.mem_filter]
        refine ⟨List.mem_map_of_mem
          (fun p : Nat × Nat => (p.1, p.2 * a.data_width / w)) hp, ?_⟩
        simpa using hkj

/-- Browser state with a remembered row of 4 for the selected item 0 at
hex-row width 16. -/
def appW : Cli.App :=
  { app0 with
    data_scroll_cache := [(0, 4)]
    data_state := some 4
    data_width := 16 }

/-- C7 witness: the amended claim instantiated at a concrete state
resized from row width 16 to 8. -/
theorem claim_C7_witness :
    (∀ p ∈ appW.data_scroll_cache,
      (p.1, p.2 * appW.data_width / 8) ∈ (appW.resize_data 8).data_scroll_cache) ∧
    (appW.key_grouping .word).data_scroll_cache = appW.data_scroll_cache ∧
    (appW.key_grouping .word).data_state = appW.data_state :=
  claim_C7 appW 8 .word (by decide) (by decide)
    (by
      intro j r hj hr
      have hj2 : 0 = j := by simpa [appW, app0] using hj
      have hr2 : 4 = r := by simpa [appW, app0] using hr
      subst hj2
      subst hr2
      rfl)

namespace Cli

/-- Scroll synchronisation invariant: item `i` is selected and the cache
remembers exactly the current payload row for it. -/
def scrollSync (i : Nat) (s : App) : Prop :=
  s.item_state = some i ∧
  s.data_state = some (cacheGet s.data_scroll_cache i)

/-- A fresh insert is what the cache reads back. -/
theorem cacheGet_insert_self (c : List (Nat × Nat)) (i r : Nat) :
    cacheGet (cacheInsert c i r) i = r := by
  rw [cacheGet, cacheInsert, List.lookup_cons]
  simp

/-- Setting the data scroll re-establishes the synchronisation
invariant. -/
theorem set_data_scroll_sync (i : Nat) (s : App) (hst : s.item_state = some i)
    (r : Nat) : scrollSync i (s.set_data_scroll r) := by
  constructor
  · simp [App.set_data_scroll, hst]
  · simp [App.set_data_scroll, hst, cacheGet_insert_self]

/-- Every payload-scroll operation preserves the synchronisation
invariant. -/
theorem applyDataOps_sync (i : Nat) :
    ∀ (ops : List DataOp) (s : App), scrollSync i s →
      scrollSync i (s.applyDataOps ops) := by
  intro ops
  induction ops with
  | nil => intro s h; exact h
  | cons op rest ih =>
    intro s h
    have hstep : scrollSync i (s.applyDataOp op) := by
      cases op with
      | next d =>
        show scrollSync i (s.next_data_row d)
        rw [App.next_data_row]
        exact set_data_scroll_sync i s h.1 _
      | prev d =>
        show scrollSync i (s.prev_data_row d)
        rw [App.prev_data_row]
        exact set_data_scroll_sync i s h.1 _
      | set r =>
        show scrollSync i (s.set_data_scroll r)
        exact set_data_scroll_sync i s h.1 _
    exact ih _ hstep

/-- Fields of a successful item selection. -/
theorem set_item_scroll_fields (a : App) (i : Nat) (b : App)
    (h : a.set_item_scroll i = some b) :
    b.item_state = some i ∧ b.data_scroll_cache = a.data_scroll_cache ∧
    b.data_state = some (cacheGet a.data_scroll_cache i) := by
  rw [App.set_item_scroll] at h
  cases hit : a.items[i]? with
  | none => rw [hit] at h; exact absurd h (by simp)
  | some it =>
    rw [hit] at h
    injection h with h2
    subst h2
    exact ⟨rfl, rfl, rfl⟩

end Cli

/-- C8: selecting item i, performing any sequence of payload-scroll
operations, selecting another item j, then selecting i again restores
the payload scroll position to the exact row left at the first visit
(unvisited items default to row 0 through the cache default). -/
theorem claim_C8 (a : Cli.App) (i j : Nat) (ops : List Cli.DataOp)
    (b c e : Cli.App)
    (hb : a.set_item_scroll i = some b)
    (hc : (b.applyDataOps ops).set_item_scroll j = some c)
    (he : c.set_item_scroll i = some e) :
    e.data_state = (b.applyDataOps ops).data_state := by
  obtain ⟨hbi, hbc, hbd⟩ := Cli.set_item_scroll_fields a i b hb
  have hPb : Cli.scrollSync i b := ⟨hbi, by rw [hbd, hbc]⟩
  have hPs1 := Cli.applyDataOps_sync i ops b hPb
  obtain ⟨-, hcc, -⟩ := Cli.set_item_scroll_fields _ j c hc
  obtain ⟨-, -, hed⟩ := Cli.set_item_scroll_fields c i e he
  rw [hed, hcc, ← hPs1.2]

/-- Applied concrete states for the C8 witness: select the record item
(index 2, empty payload), scroll once, visit the header item, return. -/
def c8b : Cli.App := (app0.set_item_scroll 2).getD app0

/-- State after the scroll and the visit to item 0. -/
def c8c : Cli.App :=
  ((c8b.applyDataOps [Cli.DataOp.next 1]).set_item_scroll 0).getD app0

/-- State after returning to item 2. -/
def c8e : Cli.App := (c8c.set_item_scroll 2).getD app0

/-- C8 witness: the claim instantiated at a concrete visit-scroll-leave-
return sequence. -/
theorem claim_C8_witness :
    app0.set_item_scroll 2 = some c8b ∧
    (c8b.applyDataOps [Cli.DataOp.next 1]).set_item_scroll 0 = some c8c ∧
    c8c.set_item_scroll 2 = some c8e ∧
    c8e.data_state = (c8b.applyDataOps [Cli.DataOp.next 1]).data_state :=
  ⟨rfl, rfl, rfl, claim_C8 app0 2 0 [Cli.DataOp.next 1] c8b c8c c8e rfl rfl rfl⟩

/-- C9: momentum behaviour of the event loop.  A run of n wheel events
each arriving within the poll timeout (from a fresh momentum of 1)
is applied with deltas 1, 2, 3, ... capped at the maximum of 16; any
non-wheel event resets the momentum to 1, and a wheel event arriving
after the timeout gap is applied with delta 1 and leaves the momentum
reset. -/
theorem claim_C9 :
    (∀ n : Nat, Cli.wheelDeltas 1 (List.replicate n (true, true))
      = (List.range n).map (fun k => min (k + 1) 16)) ∧
    (∀ (m : Nat) (ready : Bool), Cli.momentumStep m ready false = (1, none)) ∧
    (∀ m : Nat, Cli.momentumStep m false true = (1, some 1)) := by
  have hrun : ∀ (n m : Nat), 1 ≤ m → m ≤ 16 →
      Cli.wheelDeltas m (List.replicate n (true, true))
        = (List.range n).map (fun k => min (m + k) 16) := by
    intro n
    induction n with
    | zero => intro m _ _; rfl
    | succ n ih =>
      intro m h1 h16
      rw [List.replicate_succ]
      show m :: Cli.wheelDeltas (min (m + 1) 16) (List.replicate n (true, true))
        = (List.range (n + 1)).map (fun k => min (m + k) 16)
      rw [ih (min (m + 1) 16) (by omega) (by omega)]
      rw [List.range_succ_eq_map]
      simp only [List.map_cons, List.map_map, Function.comp, Nat.succ_eq_add_one]
      have hfun : ∀ k : Nat, min (min (m + 1) 16 + k) 16 = min (m + (k + 1)) 16 :=
        fun k => by omega
      simp only [hfun]
      congr 1
      omega
  refine ⟨?_, ?_, ?_⟩
  · intro n
    rw [hrun n 1 (by omega) (by omega)]
    simp [Nat.add_comm]
  · intro m ready
    cases ready <;> rfl
  · intro m
    rfl

